import Mathlib

/-! Shallow embedding of the ColorPalette extraction pipeline.

Sources:
  - src/unnamed/part_001: the TypeScript implementation (lib/getColorPalette.ts),
    which imports PALETTE_DEFAULTS from lib/paletteConfig.ts;
  - src/js/getColorPalette.js: the JavaScript implementation, kept in the repo
    as a reference/backup of the TS port;
  - src/lib/paletteConfig.ts: PALETTE_DEFAULTS.

Modelling conventions:
  - JS numbers on integer-valued paths are modelled as Nat / Int; fractional
    parameters and exact weighted averages as Rat; the WCAG contrast math
    (which uses Math.pow with real exponent 2.4) as Real.
  - Math.round x = floor (x + 1/2) (round half toward positive infinity),
    exact for the values that occur here.
  - The comparison Math.sqrt d2 <= t is modelled as 0 <= t and d2 <= t^2,
    which is equivalent over the reals because d2 >= 0.
  - The embedding starts at the point where the RGBA pixel buffer (ImageData
    .data) is available; image loading, canvas rasterization and DOM access
    are outside the pixel pipeline (they only produce the buffer). -/

/-- JS Math.round: round half toward positive infinity. -/
def mathRound (q : ℚ) : ℤ := ⌊q + 1/2⌋

/-- Math.round at the nonnegative values produced by the pipeline
(all averaged quantities here are weighted means of Nat values). -/
def mathRoundN (q : ℚ) : ℕ := (mathRound q).toNat

/-- TS sampling stride: Math.max(1, Math.floor(sampleStep))
(src/unnamed/part_001 line 96). -/
def clampStep (s : ℚ) : ℕ := (max 1 ⌊s⌋).toNat

/-- TS palette-size clamp: Math.max(1, Math.floor(paletteSize))
(src/unnamed/part_001 line 146). -/
def clampPalette (p : ℚ) : ℕ := (max 1 ⌊p⌋).toNat

/-- One RGBA pixel: 4 consecutive bytes of the ImageData buffer. -/
structure Pixel where
  r : ℕ
  g : ℕ
  b : ℕ
  a : ℕ
deriving DecidableEq, Repr

/-- The loop head for (i = 0; i < data.length; i += 4 * step): the byte
buffer of an ImageData always has length 4 * (number of pixels), so for a
stride step >= 1 the loop reads exactly the pixels whose pixel index is a
multiple of step, in increasing order. -/
def samplePixels (step : ℕ) (buf : List Pixel) : List Pixel :=
  (buf.enum.filter (fun ip => ip.1 % step == 0)).map (fun ip => ip.2)

/-- The samples kept by the loop body: a pixel with a < 128 is skipped
(contributes neither to the map nor to totalSamples). -/
def acceptedSamples (buf : List Pixel) (step : ℕ) : List Pixel :=
  (samplePixels step buf).filter (fun p => decide (128 ≤ p.a))

/-- One accumulator entry of colorMap: { count, rSum, gSum, bSum }. -/
structure MapEntry where
  count : ℕ
  rSum : ℕ
  gSum : ℕ
  bSum : ℕ
deriving DecidableEq, Repr

/-- key = (qr << 8) | (qg << 4) | qb with qr = r >> 4 etc. -/
def quantKey (p : Pixel) : ℕ :=
  ((p.r >>> 4) <<< 8) ||| (((p.g >>> 4) <<< 4) ||| (p.b >>> 4))

/-- One execution of the map update in the loop body: a JS Map iterates in
insertion order, so colorMap is modelled as an association list; a fresh key
is appended at the end, an existing key is updated in place.  A fresh entry
is { count: 0, sums 0 } immediately incremented by the current pixel. -/
def mapInsert (m : List (ℕ × MapEntry)) (k : ℕ) (p : Pixel) : List (ℕ × MapEntry) :=
  match m with
  | [] => [(k, ⟨1, p.r, p.g, p.b⟩)]
  | (k0, e) :: rest =>
    if k0 = k then (k0, ⟨e.count + 1, e.rSum + p.r, e.gSum + p.g, e.bSum + p.b⟩) :: rest
    else (k0, e) :: mapInsert rest k p

/-- The whole sampling loop, acting on the accepted samples. -/
def buildColorMap (ps : List Pixel) : List (ℕ × MapEntry) :=
  ps.foldl (fun m p => mapInsert m (quantKey p) p) []

/-- The averaged color of one bucket (interface RawColor of the TS source;
the optional percentage field is carried separately, see RatedColor). -/
structure RawColor where
  r : ℕ
  g : ℕ
  b : ℕ
  population : ℕ
deriving DecidableEq, Repr

/-- colors = Array.from(colorMap.values()).map(entry => ({ r: round(rSum /
count), ..., population: count })). -/
def entryToColor (e : MapEntry) : RawColor :=
  { r := mathRoundN ((e.rSum : ℚ) / (e.count : ℚ))
    g := mathRoundN ((e.gSum : ℚ) / (e.count : ℚ))
    b := mathRoundN ((e.bSum : ℚ) / (e.count : ℚ))
    population := e.count }

/-- The unmerged bucket list of the pipeline, in Map insertion order. -/
def bucketColors (buf : List Pixel) (step : ℕ) : List RawColor :=
  (buildColorMap (acceptedSamples buf step)).map (fun kv => entryToColor kv.2)

/-- Stable insertion for a population-descending sort: the new element goes
before the first element whose population is <= its own, hence after every
earlier element of equal population. -/
def insertDesc (pop : α → ℕ) (c : α) : List α → List α
  | [] => [c]
  | d :: rest => if pop d ≤ pop c then c :: d :: rest else d :: insertDesc pop c rest

/-- colors.sort((a, b) => b.population - a.population): ECMAScript sort is
stable, modelled as a stable insertion sort. -/
def sortByPopDesc (pop : α → ℕ) : List α → List α
  | [] => []
  | c :: rest => insertDesc pop c (sortByPopDesc pop rest)

/-- Squared Euclidean RGB distance; colorDistance of the source is its
square root. -/
def colorDist2 (c1 c2 : RawColor) : ℤ :=
  ((c1.r : ℤ) - (c2.r : ℤ))^2 + ((c1.g : ℤ) - (c2.g : ℤ))^2 + ((c1.b : ℤ) - (c2.b : ℤ))^2

/-- dist <= threshold with dist = Math.sqrt (colorDist2 c1 c2): since the
squared distance is nonnegative, this holds iff 0 <= t and d2 <= t^2. -/
def distWithin (c1 c2 : RawColor) (t : ℚ) : Prop :=
  0 ≤ t ∧ ((colorDist2 c1 c2 : ℚ) ≤ t^2)

instance (c1 c2 : RawColor) (t : ℚ) : Decidable (distWithin c1 c2 t) := by
  unfold distWithin; infer_instance

/-- Body of the dist <= threshold branch of mergeSimilarColors: populations
add and each channel becomes the Math.rounded population-weighted average. -/
def absorb (cluster color : RawColor) : RawColor :=
  { r := mathRoundN (((cluster.r * cluster.population + color.r * color.population : ℕ) : ℚ) /
          ((cluster.population + color.population : ℕ) : ℚ))
    g := mathRoundN (((cluster.g * cluster.population + color.g * color.population : ℕ) : ℚ) /
          ((cluster.population + color.population : ℕ) : ℚ))
    b := mathRoundN (((cluster.b * cluster.population + color.b * color.population : ℕ) : ℚ) /
          ((cluster.population + color.population : ℕ) : ℚ))
    population := cluster.population + color.population }

/-- The inner for loop of mergeSimilarColors: scan merged in order; on the
first cluster within threshold return the list with merged[i] replaced by
the absorbed cluster (foundCluster = true); none models foundCluster =
false. -/
def mergeInto (t : ℚ) (color : RawColor) : List RawColor → Option (List RawColor)
  | [] => none
  | cluster :: rest =>
    if distWithin color cluster t then some (absorb cluster color :: rest)
    else (mergeInto t color rest).map (fun m => cluster :: m)

/-- One iteration of the outer for loop of mergeSimilarColors: absorb into
the first matching cluster, else merged.push({ ...color }). -/
def mergeStep (t : ℚ) (merged : List RawColor) (color : RawColor) : List RawColor :=
  match mergeInto t color merged with
  | some m => m
  | none => merged ++ [color]

/-- mergeSimilarColors (src/unnamed/part_001 lines 244-279; the body in
src/js/getColorPalette.js lines 310-352 is identical). -/
def mergeSimilarColors (colors : List RawColor) (t : ℚ) : List RawColor :=
  colors.foldl (mergeStep t) []

/-- A RawColor with its percentage assigned (the source mutates an optional
field in place; the record separates the two states). -/
structure RatedColor where
  r : ℕ
  g : ℕ
  b : ℕ
  population : ℕ
  percentage : ℚ
deriving DecidableEq, Repr

/-- mergedTotalPopulation = colors.reduce((sum, c) => sum + c.population, 0). -/
def totalPopulation (l : List RawColor) : ℕ := (l.map (fun c => c.population)).sum

/-- colors.forEach(c => { c.percentage = total > 0 ? c.population / total : 0 }). -/
def rateColors (l : List RawColor) : List RatedColor :=
  l.map (fun c =>
    { r := c.r, g := c.g, b := c.b, population := c.population
      percentage := if 0 < totalPopulation l then (c.population : ℚ) / (totalPopulation l : ℚ) else 0 })

/-- JS Number.prototype.toString(16) for 0 <= n <= 255: one or two lowercase
hex digits (Nat.digitChar yields lowercase a-f, like JS). -/
def natToHex16 (n : ℕ) : String :=
  if n < 16 then String.mk [Nat.digitChar n]
  else String.mk [Nat.digitChar (n / 16), Nat.digitChar (n % 16)]

/-- hex.length === 1 ? "0" + hex : hex. -/
def padHex (s : String) : String := if s.length = 1 then "0" ++ s else s

/-- rgbToHex (src/unnamed/part_001 lines 195-205 / js lines 249-259):
"#" ++ [r, g, b].map(two-digit lowercase hex).join(""). -/
def rgbToHex (r g b : ℕ) : String :=
  "#" ++ (padHex (natToHex16 r) ++ (padHex (natToHex16 g) ++ padHex (natToHex16 b)))

/-- channelToLinear inside srgbToLuminance. -/
noncomputable def channelToLinear (c : ℝ) : ℝ :=
  let cs := c / 255
  if cs ≤ 0.03928 then cs / 12.92 else ((cs + 0.055) / 1.055) ^ (2.4 : ℝ)

/-- WCAG relative luminance. -/
noncomputable def srgbToLuminance (r g b : ℝ) : ℝ :=
  0.2126 * channelToLinear r + 0.7152 * channelToLinear g + 0.0722 * channelToLinear b

/-- contrastRatio: (lighter + 0.05) / (darker + 0.05). -/
noncomputable def contrastRatio (L1 L2 : ℝ) : ℝ :=
  (max L1 L2 + 0.05) / (min L1 L2 + 0.05)

/-- bestTextColor (part_001 lines 226-235 / js lines 282-291). -/
noncomputable def bestTextColor (r g b : ℝ) : String :=
  if contrastRatio (srgbToLuminance r g b) (srgbToLuminance 255 255 255) ≥
      contrastRatio (srgbToLuminance r g b) (srgbToLuminance 0 0 0)
  then "#FFFFFF" else "#000000"

/-- The externally visible palette entry. -/
structure PaletteColor where
  paletteColor : String
  textColor : String
  population : ℕ
  percentage : ℚ

/-- The final map over limitedColors; the TS c.percentage ?? 0 coalescing
never fires because every percentage was assigned by rateColors. -/
noncomputable def toPaletteColor (c : RatedColor) : PaletteColor :=
  { paletteColor := rgbToHex c.r c.g c.b
    textColor := bestTextColor (c.r : ℝ) (c.g : ℝ) (c.b : ℝ)
    population := c.population
    percentage := c.percentage }

/-- Sort the buckets population-descending, then merge iff the threshold is
positive (colors.sort; if (nearDuplicateThreshold > 0) colors =
mergeSimilarColors(colors, nearDuplicateThreshold)). -/
def mergedColors (buf : List Pixel) (step : ℕ) (t : ℚ) : List RawColor :=
  let colors := sortByPopDesc (fun c => c.population) (bucketColors buf step)
  if 0 < t then mergeSimilarColors colors t else colors

/-- getColorPaletteFromImageElement, TS version (src/unnamed/part_001 lines
57-158), from the point where the RGBA buffer is available.  maxResolution
only affects the canvas rasterization producing the buffer, so it is carried
but unused here. -/
noncomputable def tsPalette (buf : List Pixel)
    (paletteSize maxResolution sampleStep nearDuplicateThreshold : ℚ) : List PaletteColor :=
  let step := clampStep sampleStep
  if (acceptedSamples buf step).length = 0 then []
  else
    let rated := rateColors (mergedColors buf step nearDuplicateThreshold)
    let sorted := sortByPopDesc (fun c => c.population) rated
    (sorted.take (clampPalette paletteSize)).map toPaletteColor

/-- ECMAScript ToIntegerOrInfinity: truncation toward zero. -/
def jsTrunc (q : ℚ) : ℤ := if 0 ≤ q then ⌊q⌋ else -⌊-q⌋

/-- arr.slice(0, q): a negative end index counts back from the end of the
array, a positive one is clamped to the length. -/
def jsSlice (l : List α) (q : ℚ) : List α :=
  let k := jsTrunc q
  if 0 ≤ k then l.take k.toNat
  else l.take (l.length - min l.length (-k).toNat)

/-- getColorPaletteFromImageElement, JS version (src/js/getColorPalette.js
lines 71-208): identical to the TS version except that sampleStep is used
unclamped (modelled only for integer sampleStep >= 1: with sampleStep <= 0
the real loop never advances, and with a fractional step it reads misaligned
bytes) and that the final cut is slice(0, paletteSize) with no clamping. -/
noncomputable def jsPalette (buf : List Pixel)
    (paletteSize maxResolution : ℚ) (sampleStep : ℕ) (nearDuplicateThreshold : ℚ) : List PaletteColor :=
  if (acceptedSamples buf sampleStep).length = 0 then []
  else
    let rated := rateColors (mergedColors buf sampleStep nearDuplicateThreshold)
    let sorted := sortByPopDesc (fun c => c.population) rated
    (jsSlice sorted paletteSize).map toPaletteColor

/-- PaletteConfig of src/lib/paletteConfig.ts. -/
structure PaletteConfig where
  paletteSize : ℚ
  maxResolution : ℚ
  sampleStep : ℚ
  nearDuplicateThreshold : ℚ
deriving DecidableEq, Repr

/-- PALETTE_DEFAULTS, src/lib/paletteConfig.ts lines 8-13 (the module the TS
pipeline imports as ./paletteConfig). -/
def PALETTE_DEFAULTS : PaletteConfig :=
  { paletteSize := 10, maxResolution := 1024, sampleStep := 2, nearDuplicateThreshold := 50 }

/-- The default parameter values of the JS getColorPaletteFromImageElement
(js lines 71-77), bundled for comparison with PALETTE_DEFAULTS. -/
def jsDefaults : PaletteConfig :=
  { paletteSize := 10, maxResolution := 1024, sampleStep := 2, nearDuplicateThreshold := 50 }

/-- The further copy of the palette configuration kept at src/unnamed/part_001
lines 8-13 (same interface, different literals). -/
def partConfigDefaults : PaletteConfig :=
  { paletteSize := 8, maxResolution := 1024, sampleStep := 4, nearDuplicateThreshold := 30 }

/-! Helper lemmas about the embedded operations. -/

theorem insertDesc_perm (pop : α → ℕ) (c : α) (l : List α) :
    List.Perm (insertDesc pop c l) (c :: l) := by
  induction l with
  | nil => exact List.Perm.refl _
  | cons d rest ih =>
    unfold insertDesc
    by_cases h : pop d ≤ pop c
    · rw [if_pos h]
    · rw [if_neg h]
      exact (ih.cons d).trans (List.Perm.swap c d rest)

theorem sortByPopDesc_perm (pop : α → ℕ) (l : List α) :
    List.Perm (sortByPopDesc pop l) l := by
  induction l with
  | nil => exact List.Perm.refl _
  | cons c rest ih => exact (insertDesc_perm pop c _).trans (ih.cons c)

theorem sortByPopDesc_length (pop : α → ℕ) (l : List α) :
    (sortByPopDesc pop l).length = l.length :=
  (sortByPopDesc_perm pop l).length_eq

theorem sortByPopDesc_mem {pop : α → ℕ} {l : List α} {x : α}
    (hx : x ∈ sortByPopDesc pop l) : x ∈ l :=
  ((sortByPopDesc_perm pop l).mem_iff).mp hx

theorem samplePixels_length_le (step : ℕ) (buf : List Pixel) :
    (samplePixels step buf).length ≤ buf.length := by
  unfold samplePixels
  rw [List.length_map]
  calc (buf.enum.filter _).length ≤ buf.enum.length := List.length_filter_le _ _
    _ = buf.length := List.enum_length

theorem samplePixels_subset {step : ℕ} {buf : List Pixel} {p : Pixel}
    (hp : p ∈ samplePixels step buf) : p ∈ buf := by
  unfold samplePixels at hp
  obtain ⟨⟨i, q⟩, hmem, hq⟩ := List.mem_map.mp hp
  simp only at hq
  subst hq
  have hmem2 := List.mem_filter.mp hmem
  have h3 : (i, q) ∈ buf.enum := hmem2.1
  rw [List.enum_eq_zip_range] at h3
  exact (List.of_mem_zip h3).2

theorem acceptedSamples_subset {buf : List Pixel} {step : ℕ} {p : Pixel}
    (hp : p ∈ acceptedSamples buf step) : p ∈ buf ∧ 128 ≤ p.a := by
  unfold acceptedSamples at hp
  have h := List.mem_filter.mp hp
  exact ⟨samplePixels_subset h.1, by simpa using h.2⟩

/-- Total population of the accumulator map. -/
def mapPopulation (m : List (ℕ × MapEntry)) : ℕ := (m.map (fun kv => kv.2.count)).sum

theorem mapInsert_population (m : List (ℕ × MapEntry)) (k : ℕ) (p : Pixel) :
    mapPopulation (mapInsert m k p) = mapPopulation m + 1 := by
  induction m with
  | nil => simp [mapInsert, mapPopulation]
  | cons kv rest ih =>
    obtain ⟨k0, e⟩ := kv
    by_cases hk : k0 = k
    · simp [mapInsert, hk, mapPopulation]; omega
    · simp only [mapInsert, if_neg hk, mapPopulation, List.map_cons, List.sum_cons]
      simp only [mapPopulation] at ih
      omega

theorem buildColorMap_population (ps : List Pixel) (m : List (ℕ × MapEntry)) :
    mapPopulation (ps.foldl (fun m p => mapInsert m (quantKey p) p) m) =
      mapPopulation m + ps.length := by
  induction ps generalizing m with
  | nil => simp
  | cons p rest ih =>
    simp only [List.foldl_cons, List.length_cons, ih, mapInsert_population]
    omega

theorem mapInsert_ne_nil (m : List (ℕ × MapEntry)) (k : ℕ) (p : Pixel) :
    mapInsert m k p ≠ [] := by
  match m with
  | [] => simp [mapInsert]
  | (k0, e) :: rest =>
    unfold mapInsert
    by_cases hk : k0 = k
    · rw [if_pos hk]; simp
    · rw [if_neg hk]; simp

theorem buildColorMap_ne_nil {ps : List Pixel} (h : ps ≠ []) :
    buildColorMap ps ≠ [] := by
  unfold buildColorMap
  match ps, h with
  | p :: rest, _ =>
    rw [List.foldl_cons]
    have key : ∀ (l : List Pixel) (m : List (ℕ × MapEntry)), m ≠ [] →
        l.foldl (fun m p => mapInsert m (quantKey p) p) m ≠ [] := by
      intro l
      induction l with
      | nil => intro m hm; simpa using hm
      | cons q qs ih =>
        intro m hm
        rw [List.foldl_cons]
        exact ih _ (mapInsert_ne_nil m (quantKey q) q)
    exact key rest _ (mapInsert_ne_nil [] (quantKey p) p)

theorem mapInsert_count_pos (m : List (ℕ × MapEntry)) (k : ℕ) (p : Pixel)
    (hm : ∀ kv ∈ m, 1 ≤ kv.2.count) : ∀ kv ∈ mapInsert m k p, 1 ≤ kv.2.count := by
  induction m with
  | nil => simp [mapInsert]
  | cons kv0 rest ih =>
    obtain ⟨k0, e⟩ := kv0
    intro kv hkv
    unfold mapInsert at hkv
    by_cases hk : k0 = k
    · rw [if_pos hk] at hkv
      rcases List.mem_cons.mp hkv with h | h
      · subst h; simp
      · exact hm kv (List.mem_cons_of_mem _ h)
    · rw [if_neg hk] at hkv
      rcases List.mem_cons.mp hkv with h | h
      · subst h; exact hm _ (List.mem_cons_self _ _)
      · exact ih (fun kv h2 => hm kv (List.mem_cons_of_mem _ h2)) kv h

theorem buildColorMap_count_pos (ps : List Pixel) :
    ∀ kv ∈ buildColorMap ps, 1 ≤ kv.2.count := by
  unfold buildColorMap
  have key : ∀ (l : List Pixel) (m : List (ℕ × MapEntry)),
      (∀ kv ∈ m, 1 ≤ kv.2.count) →
      ∀ kv ∈ l.foldl (fun m p => mapInsert m (quantKey p) p) m, 1 ≤ kv.2.count := by
    intro l
    induction l with
    | nil => intro m hm; simpa using hm
    | cons q qs ih =>
      intro m hm
      rw [List.foldl_cons]
      exact ih _ (mapInsert_count_pos m _ q hm)
  exact key ps [] (by simp)

theorem mergeInto_length {t : ℚ} {color : RawColor} {l m : List RawColor}
    (h : mergeInto t color l = some m) : m.length = l.length := by
  induction l generalizing m with
  | nil => simp [mergeInto] at h
  | cons cluster rest ih =>
    unfold mergeInto at h
    by_cases hd : distWithin color cluster t
    · rw [if_pos hd] at h
      cases h
      simp
    · rw [if_neg hd] at h
      cases h0 : mergeInto t color rest with
      | none => rw [h0] at h; simp at h
      | some m0 =>
        rw [h0] at h
        simp only [Option.map_some'] at h
        cases h
        simp [ih h0]

theorem mergeStep_length (t : ℚ) (merged : List RawColor) (color : RawColor) :
    (mergeStep t merged color).length = merged.length ∨
    (mergeStep t merged color).length = merged.length + 1 := by
  unfold mergeStep
  cases h : mergeInto t color merged with
  | none => right; simp
  | some m => left; exact mergeInto_length h

theorem mergeStep_length_ge (t : ℚ) (merged : List RawColor) (color : RawColor) :
    merged.length ≤ (mergeStep t merged color).length := by
  rcases mergeStep_length t merged color with h | h <;> omega

theorem mergeStep_length_le (t : ℚ) (merged : List RawColor) (color : RawColor) :
    (mergeStep t merged color).length ≤ merged.length + 1 := by
  rcases mergeStep_length t merged color with h | h <;> omega

theorem foldl_mergeStep_length_ge (t : ℚ) (l acc : List RawColor) :
    acc.length ≤ (l.foldl (mergeStep t) acc).length := by
  induction l generalizing acc with
  | nil => simp
  | cons c rest ih =>
    rw [List.foldl_cons]
    exact le_trans (mergeStep_length_ge t acc c) (ih _)

theorem foldl_mergeStep_length_le (t : ℚ) (l acc : List RawColor) :
    (l.foldl (mergeStep t) acc).length ≤ acc.length + l.length := by
  induction l generalizing acc with
  | nil => simp
  | cons c rest ih =>
    rw [List.foldl_cons]
    calc ((rest.foldl (mergeStep t) (mergeStep t acc c)).length)
        ≤ (mergeStep t acc c).length + rest.length := ih _
      _ ≤ (acc.length + 1) + rest.length := by
          have := mergeStep_length_le t acc c; omega
      _ = acc.length + (c :: rest).length := by simp; omega

theorem mergeSimilarColors_length_le (l : List RawColor) (t : ℚ) :
    (mergeSimilarColors l t).length ≤ l.length := by
  have := foldl_mergeStep_length_le t l []
  simpa [mergeSimilarColors] using this

theorem mergeSimilarColors_length_pos {l : List RawColor} (t : ℚ) (h : l ≠ []) :
    1 ≤ (mergeSimilarColors l t).length := by
  match l, h with
  | c :: rest, _ =>
    unfold mergeSimilarColors
    rw [List.foldl_cons]
    have h1 : mergeStep t [] c = [c] := rfl
    have h2 : 1 ≤ (mergeStep t [] c).length := by rw [h1]; simp
    exact le_trans h2 (foldl_mergeStep_length_ge t rest _)

theorem mergeInto_total {t : ℚ} {color : RawColor} {l m : List RawColor}
    (h : mergeInto t color l = some m) :
    totalPopulation m = totalPopulation l + color.population := by
  induction l generalizing m with
  | nil => simp [mergeInto] at h
  | cons cluster rest ih =>
    unfold mergeInto at h
    by_cases hd : distWithin color cluster t
    · rw [if_pos hd] at h
      cases h
      simp [totalPopulation, absorb]
      omega
    · rw [if_neg hd] at h
      cases h0 : mergeInto t color rest with
      | none => rw [h0] at h; simp at h
      | some m0 =>
        rw [h0] at h
        simp only [Option.map_some'] at h
        cases h
        simp only [totalPopulation, List.map_cons, List.sum_cons] at ih ⊢
        rw [ih h0]
        omega

theorem mergeStep_total (t : ℚ) (merged : List RawColor) (color : RawColor) :
    totalPopulation (mergeStep t merged color) = totalPopulation merged + color.population := by
  unfold mergeStep
  cases h : mergeInto t color merged with
  | none => simp [totalPopulation]
  | some m => exact mergeInto_total h

theorem mergeSimilarColors_total (l : List RawColor) (t : ℚ) :
    totalPopulation (mergeSimilarColors l t) = totalPopulation l := by
  have key : ∀ (l acc : List RawColor),
      totalPopulation (l.foldl (mergeStep t) acc) = totalPopulation acc + totalPopulation l := by
    intro l
    induction l with
    | nil => intro acc; simp [totalPopulation]
    | cons c rest ih =>
      intro acc
      rw [List.foldl_cons, ih, mergeStep_total]
      simp only [totalPopulation, List.map_cons, List.sum_cons]
      omega
  have := key l []
  simpa [mergeSimilarColors, totalPopulation] using this

theorem mergeInto_mem {t : ℚ} {color : RawColor} {l m : List RawColor}
    (h : mergeInto t color l = some m) :
    ∀ x ∈ m, x ∈ l ∨ ∃ cl ∈ l, x = absorb cl color := by
  induction l generalizing m with
  | nil => simp [mergeInto] at h
  | cons cluster rest ih =>
    unfold mergeInto at h
    by_cases hd : distWithin color cluster t
    · rw [if_pos hd] at h
      cases h
      intro x hx
      rcases List.mem_cons.mp hx with h1 | h1
      · exact Or.inr ⟨cluster, List.mem_cons_self _ _, h1⟩
      · exact Or.inl (List.mem_cons_of_mem _ h1)
    · rw [if_neg hd] at h
      cases h0 : mergeInto t color rest with
      | none => rw [h0] at h; simp at h
      | some m0 =>
        rw [h0] at h
        simp only [Option.map_some'] at h
        cases h
        intro x hx
        rcases List.mem_cons.mp hx with h1 | h1
        · exact Or.inl (h1 ▸ List.mem_cons_self _ _)
        · rcases ih h0 x h1 with h2 | ⟨cl, hcl, hx2⟩
          · exact Or.inl (List.mem_cons_of_mem _ h2)
          · exact Or.inr ⟨cl, List.mem_cons_of_mem _ hcl, hx2⟩

theorem mergeSimilarColors_mem_pred {P : RawColor → Prop} {l : List RawColor} {t : ℚ}
    (hl : ∀ c ∈ l, P c) (habs : ∀ a b, P a → P b → P (absorb a b)) :
    ∀ x ∈ mergeSimilarColors l t, P x := by
  have key : ∀ (l acc : List RawColor), (∀ c ∈ l, P c) → (∀ c ∈ acc, P c) →
      ∀ x ∈ l.foldl (mergeStep t) acc, P x := by
    intro l
    induction l with
    | nil => intro acc _ hacc; simpa using hacc
    | cons c rest ih =>
      intro acc hl2 hacc
      rw [List.foldl_cons]
      refine ih _ (fun d hd => hl2 d (List.mem_cons_of_mem _ hd)) ?_
      intro x hx
      have hc : P c := hl2 c (List.mem_cons_self _ _)
      unfold mergeStep at hx
      cases h0 : mergeInto t c acc with
      | none =>
        rw [h0] at hx
        simp only at hx
        rcases List.mem_append.mp hx with h1 | h1
        · exact hacc x h1
        · simp at h1; exact h1 ▸ hc
      | some m =>
        rw [h0] at hx
        simp only at hx
        rcases mergeInto_mem h0 x hx with h1 | ⟨cl, hcl, hx2⟩
        · exact hacc x h1
        · exact hx2 ▸ habs cl c (hacc cl hcl) hc
  exact key l [] hl (by simp)

theorem mathRoundN_le {q : ℚ} {n : ℕ} (h : q ≤ n) : mathRoundN q ≤ n := by
  unfold mathRoundN mathRound
  rw [Int.toNat_le]
  have h2 : ⌊q + 1/2⌋ < (n : ℤ) + 1 := Int.floor_lt.mpr (by push_cast; linarith)
  omega

theorem div_le_nat {a c bnd : ℕ} (h : a ≤ bnd * c) : ((a : ℚ) / (c : ℚ)) ≤ bnd := by
  rcases Nat.eq_zero_or_pos c with hc | hc
  · subst hc
    have ha : a = 0 := by omega
    simp [ha]
  · have hc2 : (0 : ℚ) < c := by exact_mod_cast hc
    rw [div_le_iff hc2]
    exact_mod_cast h

/-- The channel bounds that hold for every color the pipeline builds from a
valid RGBA buffer (bytes are 0..255). -/
def chBounded (c : RawColor) : Prop := c.r ≤ 255 ∧ c.g ≤ 255 ∧ c.b ≤ 255

/-- A buffer whose channel entries are genuine bytes, as every ImageData is. -/
def validBuffer (buf : List Pixel) : Prop :=
  ∀ px ∈ buf, px.r ≤ 255 ∧ px.g ≤ 255 ∧ px.b ≤ 255

instance (buf : List Pixel) : Decidable (validBuffer buf) := by
  unfold validBuffer; exact List.decidableBAll _ buf

theorem mapInsert_bounds (m : List (ℕ × MapEntry)) (k : ℕ) (p : Pixel)
    (hp : p.r ≤ 255 ∧ p.g ≤ 255 ∧ p.b ≤ 255)
    (hm : ∀ kv ∈ m, kv.2.rSum ≤ 255 * kv.2.count ∧ kv.2.gSum ≤ 255 * kv.2.count ∧
            kv.2.bSum ≤ 255 * kv.2.count) :
    ∀ kv ∈ mapInsert m k p, kv.2.rSum ≤ 255 * kv.2.count ∧ kv.2.gSum ≤ 255 * kv.2.count ∧
      kv.2.bSum ≤ 255 * kv.2.count := by
  induction m with
  | nil =>
    intro kv hkv
    simp only [mapInsert, List.mem_singleton] at hkv
    subst hkv
    simp
    omega
  | cons kv0 rest ih =>
    obtain ⟨k0, e⟩ := kv0
    intro kv hkv
    unfold mapInsert at hkv
    by_cases hk : k0 = k
    · rw [if_pos hk] at hkv
      rcases List.mem_cons.mp hkv with h1 | h1
      · subst h1
        have he := hm (k0, e) (List.mem_cons_self _ _)
        simp at he ⊢
        omega
      · exact hm kv (List.mem_cons_of_mem _ h1)
    · rw [if_neg hk] at hkv
      rcases List.mem_cons.mp hkv with h1 | h1
      · subst h1; exact hm _ (List.mem_cons_self _ _)
      · exact ih (fun kv h2 => hm kv (List.mem_cons_of_mem _ h2)) kv h1

theorem buildColorMap_bounds {ps : List Pixel}
    (hps : ∀ px ∈ ps, px.r ≤ 255 ∧ px.g ≤ 255 ∧ px.b ≤ 255) :
    ∀ kv ∈ buildColorMap ps, kv.2.rSum ≤ 255 * kv.2.count ∧ kv.2.gSum ≤ 255 * kv.2.count ∧
      kv.2.bSum ≤ 255 * kv.2.count := by
  unfold buildColorMap
  have key : ∀ (l : List Pixel) (m : List (ℕ × MapEntry)),
      (∀ px ∈ l, px.r ≤ 255 ∧ px.g ≤ 255 ∧ px.b ≤ 255) →
      (∀ kv ∈ m, kv.2.rSum ≤ 255 * kv.2.count ∧ kv.2.gSum ≤ 255 * kv.2.count ∧
        kv.2.bSum ≤ 255 * kv.2.count) →
      ∀ kv ∈ l.foldl (fun m p => mapInsert m (quantKey p) p) m,
        kv.2.rSum ≤ 255 * kv.2.count ∧ kv.2.gSum ≤ 255 * kv.2.count ∧
          kv.2.bSum ≤ 255 * kv.2.count := by
    intro l
    induction l with
    | nil => intro m _ hm; simpa using hm
    | cons q qs ih =>
      intro m hl hm
      rw [List.foldl_cons]
      exact ih _ (fun px hpx => hl px (List.mem_cons_of_mem _ hpx))
        (mapInsert_bounds m _ q (hl q (List.mem_cons_self _ _)) hm)
  exact key ps [] hps (by simp)

theorem bucketColors_pop_pos (buf : List Pixel) (step : ℕ) :
    ∀ c ∈ bucketColors buf step, 1 ≤ c.population := by
  intro c hc
  unfold bucketColors at hc
  obtain ⟨kv, hkv, hc2⟩ := List.mem_map.mp hc
  have := buildColorMap_count_pos _ kv hkv
  rw [← hc2]
  simpa [entryToColor] using this

theorem bucketColors_bounds {buf : List Pixel} (hbuf : validBuffer buf) (step : ℕ) :
    ∀ c ∈ bucketColors buf step, chBounded c := by
  intro c hc
  unfold bucketColors at hc
  obtain ⟨kv, hkv, hc2⟩ := List.mem_map.mp hc
  have hacc : ∀ px ∈ acceptedSamples buf step, px.r ≤ 255 ∧ px.g ≤ 255 ∧ px.b ≤ 255 :=
    fun px hpx => hbuf px (acceptedSamples_subset hpx).1
  have hb := buildColorMap_bounds hacc kv hkv
  rw [← hc2]
  exact ⟨mathRoundN_le (div_le_nat hb.1), mathRoundN_le (div_le_nat hb.2.1),
    mathRoundN_le (div_le_nat hb.2.2)⟩

theorem absorb_bounded {a b : RawColor} (ha : chBounded a) (hb : chBounded b) :
    chBounded (absorb a b) := by
  obtain ⟨ha1, ha2, ha3⟩ := ha
  obtain ⟨hb1, hb2, hb3⟩ := hb
  refine ⟨mathRoundN_le (div_le_nat ?_), mathRoundN_le (div_le_nat ?_),
    mathRoundN_le (div_le_nat ?_)⟩ <;>
  · rw [Nat.mul_add]
    exact Nat.add_le_add (Nat.mul_le_mul_right _ ‹_ ≤ 255›) (Nat.mul_le_mul_right _ ‹_ ≤ 255›)

theorem totalPopulation_perm {l l2 : List RawColor} (h : List.Perm l l2) :
    totalPopulation l = totalPopulation l2 :=
  (h.map _).sum_eq

theorem totalPopulation_bucketColors (buf : List Pixel) (step : ℕ) :
    totalPopulation (bucketColors buf step) = (acceptedSamples buf step).length := by
  unfold bucketColors totalPopulation buildColorMap
  rw [List.map_map]
  have h := buildColorMap_population (acceptedSamples buf step) []
  unfold buildColorMap mapPopulation at h
  simp only [List.map_nil, List.sum_nil, Nat.zero_add] at h
  exact h

theorem mergedColors_total (buf : List Pixel) (step : ℕ) (t : ℚ) :
    totalPopulation (mergedColors buf step t) = (acceptedSamples buf step).length := by
  unfold mergedColors
  by_cases ht : 0 < t
  · rw [if_pos ht, mergeSimilarColors_total,
      totalPopulation_perm (sortByPopDesc_perm _ _), totalPopulation_bucketColors]
  · rw [if_neg ht, totalPopulation_perm (sortByPopDesc_perm _ _), totalPopulation_bucketColors]

theorem mergedColors_length_pos (buf : List Pixel) (step : ℕ) (t : ℚ)
    (h : 1 ≤ (acceptedSamples buf step).length) : 1 ≤ (mergedColors buf step t).length := by
  have hne : acceptedSamples buf step ≠ [] := by
    intro h0; rw [h0] at h; simp at h
  have hb : bucketColors buf step ≠ [] := by
    unfold bucketColors
    simp only [ne_eq, List.map_eq_nil]
    exact buildColorMap_ne_nil hne
  have hs : sortByPopDesc (fun c => c.population) (bucketColors buf step) ≠ [] := by
    intro h0
    have hlen := sortByPopDesc_length (fun c => c.population) (bucketColors buf step)
    rw [h0] at hlen
    exact hb (List.length_eq_zero.mp hlen.symm)
  unfold mergedColors
  by_cases ht : 0 < t
  · rw [if_pos ht]; exact mergeSimilarColors_length_pos t hs
  · rw [if_neg ht]; exact List.length_pos.mpr hs

theorem mergedColors_length_le (buf : List Pixel) (step : ℕ) (t : ℚ) :
    (mergedColors buf step t).length ≤ (bucketColors buf step).length := by
  unfold mergedColors
  by_cases ht : 0 < t
  · rw [if_pos ht]
    calc (mergeSimilarColors _ t).length ≤ _ := mergeSimilarColors_length_le _ t
      _ = (bucketColors buf step).length := sortByPopDesc_length _ _
  · rw [if_neg ht]
    exact le_of_eq (sortByPopDesc_length _ _)

theorem mergedColors_bounds {buf : List Pixel} (hbuf : validBuffer buf) (step : ℕ) (t : ℚ) :
    ∀ c ∈ mergedColors buf step t, chBounded c := by
  intro c hc
  unfold mergedColors at hc
  have hsorted : ∀ d ∈ sortByPopDesc (fun c => c.population) (bucketColors buf step),
      chBounded d :=
    fun d hd => bucketColors_bounds hbuf step d (sortByPopDesc_mem hd)
  by_cases ht : 0 < t
  · rw [if_pos ht] at hc
    exact mergeSimilarColors_mem_pred hsorted (fun a b ha hb => absorb_bounded ha hb) c hc
  · rw [if_neg ht] at hc
    exact hsorted c hc

theorem rateColors_length (l : List RawColor) : (rateColors l).length = l.length := by
  simp [rateColors]

theorem rateColors_sum {l : List RawColor} (h : 0 < totalPopulation l) :
    ((rateColors l).map (fun c => c.percentage)).sum = 1 := by
  unfold rateColors
  rw [List.map_map]
  have key : ∀ (xs : List RawColor) (d : ℚ),
      (xs.map (fun c => (c.population : ℚ) / d)).sum = ((totalPopulation xs : ℚ)) / d := by
    intro xs d
    induction xs with
    | nil => simp [totalPopulation]
    | cons c rest ih =>
      simp only [List.map_cons, List.sum_cons, totalPopulation] at ih ⊢
      rw [ih]
      push_cast
      rw [add_div]
  have hfun : ((fun c : RatedColor => c.percentage) ∘
      (fun c : RawColor =>
        ({ r := c.r, g := c.g, b := c.b, population := c.population,
           percentage := if 0 < totalPopulation l then (c.population : ℚ) / (totalPopulation l : ℚ) else 0 } : RatedColor))) =
      fun c : RawColor => (c.population : ℚ) / (totalPopulation l : ℚ) := by
    funext c
    simp [h]
  rw [hfun, key l]
  rw [div_self]
  have h2 : (0 : ℚ) < (totalPopulation l : ℚ) := by exact_mod_cast h
  exact ne_of_gt h2

/-! Claim theorems. -/

/-- C4: every bucket population is an integer >= 1; populations of the
unmerged bucket set sum to the number of accepted (alpha >= 128) samples;
and mergeSimilarColors preserves the population total, so the clusters
always account exactly for the buckets they absorbed. -/
theorem C4_population_invariants (buf : List Pixel) (s : ℚ) (t : ℚ) (colors : List RawColor) :
    (∀ c ∈ bucketColors buf (clampStep s), 1 ≤ c.population) ∧
    totalPopulation (bucketColors buf (clampStep s)) = (acceptedSamples buf (clampStep s)).length ∧
    totalPopulation (mergeSimilarColors colors t) = totalPopulation colors :=
  ⟨bucketColors_pop_pos buf _, totalPopulation_bucketColors buf _,
    mergeSimilarColors_total colors t⟩

/-- C6: the sample step is clamped to a minimum of 1, each iteration
advances the byte index by 4 * clampStep s >= 4 (at least one whole pixel),
and the iteration count is bounded by the number of pixels, so the sampling
loop terminates on every finite buffer. -/
theorem C6_sample_step_clamped (s : ℚ) (buf : List Pixel) :
    1 ≤ clampStep s ∧ 4 ≤ 4 * clampStep s ∧
    (samplePixels (clampStep s) buf).length ≤ buf.length := by
  have h1 : 1 ≤ clampStep s := by
    unfold clampStep
    have h2 : (1 : ℤ) ≤ max 1 ⌊s⌋ := le_max_left _ _
    omega
  exact ⟨h1, by omega, samplePixels_length_le _ buf⟩

/-- C7: when zero samples are accepted, both implementations return the
empty palette; the embedded pipeline is a total function of the buffer, so
from a valid buffer on there is no failing path. -/
theorem C7_empty_palette_on_no_samples (buf : List Pixel) (p mr s t : ℚ) (n : ℕ)
    (h1 : (acceptedSamples buf (clampStep s)).length = 0)
    (h2 : (acceptedSamples buf n).length = 0) :
    tsPalette buf p mr s t = [] ∧ jsPalette buf p mr n t = [] := by
  constructor
  · simp only [tsPalette]
    rw [if_pos h1]
  · simp only [jsPalette]
    rw [if_pos h2]

theorem C7_empty_palette_on_no_samples_witness :
    (acceptedSamples [⟨5, 5, 5, 0⟩] (clampStep 2)).length = 0 ∧
    (acceptedSamples [⟨5, 5, 5, 0⟩] 2).length = 0 ∧
    (tsPalette [⟨5, 5, 5, 0⟩] 10 1024 2 50 = [] ∧ jsPalette [⟨5, 5, 5, 0⟩] 10 1024 2 50 = []) :=
  ⟨by decide, by decide,
    C7_empty_palette_on_no_samples [⟨5, 5, 5, 0⟩] 10 1024 2 50 2 (by decide) (by decide)⟩

/-- The five-pixel buffer on which raising the threshold from 20 to 22
raises the cluster count: buckets (100,0,0) pop 2, then (122,0,0),
(80,0,0), (130,0,0) pop 1 each. -/
def bufThreshold : List Pixel :=
  [⟨100, 0, 0, 255⟩, ⟨100, 0, 0, 255⟩, ⟨122, 0, 0, 255⟩, ⟨80, 0, 0, 255⟩, ⟨130, 0, 0, 255⟩]

/-- C3 as stated is false: same buffer and parameters, thresholds 20 <= 22,
but the merge step yields 2 clusters at threshold 20 and 3 at 22 (at 22 the
second bucket is absorbed into the first, which drags the cluster centroid
away from the remaining buckets). -/
theorem C3_counterexample :
    (20 : ℚ) ≤ 22 ∧
    (mergedColors bufThreshold (clampStep 1) 20).length = 2 ∧
    (mergedColors bufThreshold (clampStep 1) 22).length = 3 := by
  refine ⟨by norm_num, by with_unfolding_all decide, by with_unfolding_all decide⟩

/-- C3 amended: the cluster count is not monotone in the threshold (see
C3_counterexample); what holds is that merging never yields more clusters
than buckets, and at least one cluster for a nonempty bucket list. -/
theorem C3_amended_cluster_count_bounds (l : List RawColor) (t : ℚ) (h : l ≠ []) :
    1 ≤ (mergeSimilarColors l t).length ∧
    (mergeSimilarColors l t).length ≤ l.length :=
  ⟨mergeSimilarColors_length_pos t h, mergeSimilarColors_length_le l t⟩

theorem C3_amended_cluster_count_bounds_witness :
    ([⟨1, 2, 3, 4⟩] : List RawColor) ≠ [] ∧
    (1 ≤ (mergeSimilarColors [⟨1, 2, 3, 4⟩] 50).length ∧
      (mergeSimilarColors [⟨1, 2, 3, 4⟩] 50).length ≤ ([⟨1, 2, 3, 4⟩] : List RawColor).length) :=
  ⟨by decide, C3_amended_cluster_count_bounds [⟨1, 2, 3, 4⟩] 50 (by decide)⟩

/-- The two-pixel buffer (one black, one white opaque pixel) used to refute
C2: two clusters of population 1 each. -/
def bufTwoColors : List Pixel := [⟨0, 0, 0, 255⟩, ⟨255, 255, 255, 255⟩]

/-- Sum of the percentage fields of a returned palette. -/
def sumPercent (l : List PaletteColor) : ℚ := (l.map (fun c => c.percentage)).sum

/-- C2 as stated is false: paletteSize = 1 on a two-cluster image returns a
nonempty palette whose percentages sum to 1/2, because percentages are
computed over all merged clusters and the palette is then truncated. -/
theorem C2_counterexample :
    tsPalette bufTwoColors 1 1024 1 50 ≠ [] ∧
    sumPercent (tsPalette bufTwoColors 1 1024 1 50) ≠ 1 := by
  constructor
  · have h : (tsPalette bufTwoColors 1 1024 1 50).length = 1 := by
      with_unfolding_all decide
    intro h0
    rw [h0] at h
    simp at h
  · have h : sumPercent (tsPalette bufTwoColors 1 1024 1 50) = 1/2 := by
      with_unfolding_all decide
    rw [h]
    norm_num

/-- C2 amended: the percentages over all merged clusters sum to exactly 1
whenever at least one sample was accepted, so the returned percentages sum
to 1 exactly when no cluster is cut off by paletteSize (cluster count <=
clamped paletteSize); in the rational model the sum is exact. -/
theorem C2_amended_percentage_sum (buf : List Pixel) (p mr s t : ℚ)
    (h1 : 1 ≤ (acceptedSamples buf (clampStep s)).length)
    (h2 : (mergedColors buf (clampStep s) t).length ≤ clampPalette p) :
    sumPercent (tsPalette buf p mr s t) = 1 := by
  have htot : 0 < totalPopulation (mergedColors buf (clampStep s) t) := by
    rw [mergedColors_total]; omega
  have hlen : (sortByPopDesc (fun c => c.population)
      (rateColors (mergedColors buf (clampStep s) t))).length ≤ clampPalette p := by
    rw [sortByPopDesc_length, rateColors_length]; exact h2
  unfold sumPercent
  simp only [tsPalette]
  rw [if_neg (by omega)]
  rw [List.take_of_length_le hlen]
  rw [List.map_map]
  have hcomp : ((fun c : PaletteColor => c.percentage) ∘ toPaletteColor) =
      (fun c : RatedColor => c.percentage) := rfl
  rw [hcomp]
  have hperm := (sortByPopDesc_perm (fun c : RatedColor => c.population)
    (rateColors (mergedColors buf (clampStep s) t))).map (fun c : RatedColor => c.percentage)
  rw [hperm.sum_eq]
  exact rateColors_sum htot

theorem C2_amended_percentage_sum_witness :
    1 ≤ (acceptedSamples bufTwoColors (clampStep 1)).length ∧
    (mergedColors bufTwoColors (clampStep 1) 50).length ≤ clampPalette 10 ∧
    sumPercent (tsPalette bufTwoColors 10 1024 1 50) = 1 :=
  ⟨by decide, by with_unfolding_all decide,
    C2_amended_percentage_sum bufTwoColors 10 1024 1 50 (by decide) (by with_unfolding_all decide)⟩

/-- C5: with at least one accepted sample the TS pipeline returns at least
one color even for paletteSize <= 0, at most clampPalette paletteSize
colors, and at most paletteSize colors whenever paletteSize >= 1. -/
theorem C5_palette_size_clamped (buf : List Pixel) (p mr s t : ℚ)
    (h : 1 ≤ (acceptedSamples buf (clampStep s)).length) :
    1 ≤ (tsPalette buf p mr s t).length ∧
    (tsPalette buf p mr s t).length ≤ clampPalette p ∧
    (1 ≤ p → ((tsPalette buf p mr s t).length : ℚ) ≤ p) := by
  have hlen : (tsPalette buf p mr s t).length =
      min (clampPalette p) ((mergedColors buf (clampStep s) t).length) := by
    simp only [tsPalette]
    rw [if_neg (by omega)]
    rw [List.length_map, List.length_take, sortByPopDesc_length, rateColors_length]
  have hm := mergedColors_length_pos buf (clampStep s) t h
  have hcp : 1 ≤ clampPalette p := by
    unfold clampPalette
    have h2 : (1 : ℤ) ≤ max 1 ⌊p⌋ := le_max_left _ _
    omega
  refine ⟨by omega, by omega, ?_⟩
  intro hp
  have hfl : (1 : ℤ) ≤ ⌊p⌋ := by
    rw [Int.le_floor]; exact_mod_cast hp
  have hcp2 : ((clampPalette p : ℚ)) ≤ p := by
    unfold clampPalette
    rw [max_eq_right hfl]
    have h4 : ((⌊p⌋.toNat : ℕ) : ℤ) = ⌊p⌋ := Int.toNat_of_nonneg (by omega)
    have h5 : ((⌊p⌋.toNat : ℕ) : ℚ) = ((⌊p⌋ : ℤ) : ℚ) := by exact_mod_cast congrArg (fun z : ℤ => (z : ℚ)) h4
    rw [h5]
    exact Int.floor_le p
  have hle : (tsPalette buf p mr s t).length ≤ clampPalette p := by omega
  calc ((tsPalette buf p mr s t).length : ℚ) ≤ (clampPalette p : ℚ) := by exact_mod_cast hle
    _ ≤ p := hcp2

theorem C5_palette_size_clamped_witness :
    1 ≤ (acceptedSamples bufTwoColors (clampStep 1)).length ∧
    (1 ≤ (tsPalette bufTwoColors 0 1024 1 50).length ∧
      (tsPalette bufTwoColors 0 1024 1 50).length ≤ clampPalette 0 ∧
      (1 ≤ (0 : ℚ) → ((tsPalette bufTwoColors 0 1024 1 50).length : ℚ) ≤ 0)) :=
  ⟨by decide, C5_palette_size_clamped bufTwoColors 0 1024 1 50 (by decide)⟩

/-! The first-match characterization of the merge inner loop, for C1. -/

theorem mergeInto_none (t : ℚ) (color : RawColor) {merged : List RawColor}
    (h : ∀ cl ∈ merged, ¬ distWithin color cl t) : mergeInto t color merged = none := by
  induction merged with
  | nil => rfl
  | cons cluster rest ih =>
    unfold mergeInto
    rw [if_neg (h cluster (List.mem_cons_self _ _))]
    rw [ih (fun cl hcl => h cl (List.mem_cons_of_mem _ hcl))]
    rfl

theorem mergeInto_first {t : ℚ} {color : RawColor} {merged : List RawColor}
    (i : ℕ) (hi : i < merged.length)
    (hmatch : distWithin color (merged.get ⟨i, hi⟩) t)
    (hbefore : ∀ (j : ℕ) (hj : j < merged.length), j < i →
      ¬ distWithin color (merged.get ⟨j, hj⟩) t) :
    mergeInto t color merged = some (merged.set i (absorb (merged.get ⟨i, hi⟩) color)) := by
  induction merged generalizing i with
  | nil => simp at hi
  | cons cluster rest ih =>
    cases i with
    | zero =>
      have hm0 : distWithin color cluster t := hmatch
      unfold mergeInto
      rw [if_pos hm0]
      rfl
    | succ i0 =>
      have hhead : ¬ distWithin color cluster t := hbefore 0 (by omega) (by omega)
      unfold mergeInto
      rw [if_neg hhead]
      have hi0 : i0 < rest.length := by simpa using hi
      rw [ih i0 hi0 hmatch (fun j hj hlt => hbefore (j + 1) (by omega) (by omega))]
      rfl

/-- C1: for a positive threshold the pipeline merge step is exactly
mergeSimilarColors applied to the population-descending bucket list, which
folds the buckets one at a time over a growing cluster list; each step
scans the clusters in creation order, absorbs the bucket into the FIRST
cluster within Euclidean RGB distance threshold (population = sum, each
channel = round of the population-weighted average), replacing it in place,
and appends the bucket as a new cluster when no cluster is within
threshold. -/
theorem C1_merge_first_match (t : ℚ) (ht : 0 < t) (buf : List Pixel) (step : ℕ)
    (merged : List RawColor) (color : RawColor) :
    mergedColors buf step t =
      mergeSimilarColors (sortByPopDesc (fun c => c.population) (bucketColors buf step)) t ∧
    (∀ colors : List RawColor, mergeSimilarColors colors t = colors.foldl (mergeStep t) []) ∧
    (∀ a b : RawColor, absorb a b =
      { r := mathRoundN (((a.r * a.population + b.r * b.population : ℕ) : ℚ) /
              ((a.population + b.population : ℕ) : ℚ))
        g := mathRoundN (((a.g * a.population + b.g * b.population : ℕ) : ℚ) /
              ((a.population + b.population : ℕ) : ℚ))
        b := mathRoundN (((a.b * a.population + b.b * b.population : ℕ) : ℚ) /
              ((a.population + b.population : ℕ) : ℚ))
        population := a.population + b.population }) ∧
    ((∀ cl ∈ merged, ¬ distWithin color cl t) →
      mergeStep t merged color = merged ++ [color]) ∧
    (∀ (i : ℕ) (hi : i < merged.length), distWithin color (merged.get ⟨i, hi⟩) t →
      (∀ (j : ℕ) (hj : j < merged.length), j < i →
        ¬ distWithin color (merged.get ⟨j, hj⟩) t) →
      mergeStep t merged color = merged.set i (absorb (merged.get ⟨i, hi⟩) color)) := by
  refine ⟨?_, fun colors => rfl, fun a b => rfl, ?_, ?_⟩
  · unfold mergedColors
    rw [if_pos ht]
  · intro hnone
    unfold mergeStep
    rw [mergeInto_none t color hnone]
  · intro i hi hmatch hbefore
    unfold mergeStep
    rw [mergeInto_first i hi hmatch hbefore]

theorem C1_merge_first_match_witness :
    (0 : ℚ) < 30 ∧
    (mergeStep 30 [⟨100, 0, 0, 2⟩] ⟨110, 0, 0, 1⟩ =
      [⟨100, 0, 0, 2⟩].set 0 (absorb (([⟨100, 0, 0, 2⟩] : List RawColor).get ⟨0, by decide⟩) ⟨110, 0, 0, 1⟩) ∧
     mergeStep 30 [⟨100, 0, 0, 2⟩] ⟨200, 0, 0, 1⟩ = [⟨100, 0, 0, 2⟩] ++ [⟨200, 0, 0, 1⟩]) := by
  have h := C1_merge_first_match 30 (by norm_num) [] 1 [⟨100, 0, 0, 2⟩] ⟨110, 0, 0, 1⟩
  have h2 := C1_merge_first_match 30 (by norm_num) [] 1 [⟨100, 0, 0, 2⟩] ⟨200, 0, 0, 1⟩
  refine ⟨by norm_num, ?_, ?_⟩
  · exact h.2.2.2.2 0 (by decide) (by with_unfolding_all decide)
      (fun j hj hlt => absurd hlt (by omega))
  · exact h2.2.2.2.1 (by
      intro cl hcl
      have hcl2 : cl = ⟨100, 0, 0, 2⟩ := by simpa using hcl
      subst hcl2
      with_unfolding_all decide)

/-! Hex formatting, for C8. -/

/-- The shape the spec asserts of every produced hex string: exactly 7
characters, a leading '#', then lowercase hexadecimal digits only. -/
def hexShape (str : String) : Prop :=
  str.length = 7 ∧ str.data.head? = some '#' ∧
    ∀ ch ∈ str.data.tail, ch ∈ "0123456789abcdef".data

set_option maxRecDepth 4096 in
theorem padHex_shape {n : ℕ} (h : n ≤ 255) :
    (padHex (natToHex16 n)).length = 2 ∧
    ∀ ch ∈ (padHex (natToHex16 n)).data, ch ∈ "0123456789abcdef".data := by
  have key : ∀ m, m < 256 → (padHex (natToHex16 m)).length = 2 ∧
      ∀ ch ∈ (padHex (natToHex16 m)).data, ch ∈ "0123456789abcdef".data := by decide
  exact key n (by omega)

theorem rgbToHex_shape {r g b : ℕ} (hr : r ≤ 255) (hg : g ≤ 255) (hb : b ≤ 255) :
    hexShape (rgbToHex r g b) := by
  obtain ⟨hlr, hmr⟩ := padHex_shape hr
  obtain ⟨hlg, hmg⟩ := padHex_shape hg
  obtain ⟨hlb, hmb⟩ := padHex_shape hb
  unfold rgbToHex hexShape
  refine ⟨?_, ?_, ?_⟩
  · rw [String.length_append, String.length_append, String.length_append, hlr, hlg, hlb]
    rfl
  · rw [String.data_append]
    rfl
  · intro ch hch
    rw [String.data_append] at hch
    have hch2 : ch ∈ (padHex (natToHex16 r)).data ++
        ((padHex (natToHex16 g)).data ++ (padHex (natToHex16 b)).data) := by
      have hd : ("#" : String).data = ['#'] := rfl
      rw [hd, String.data_append, String.data_append] at hch
      simpa using hch
    rcases List.mem_append.mp hch2 with h1 | h1
    · exact hmr ch h1
    · rcases List.mem_append.mp h1 with h2 | h2
      · exact hmg ch h2
      · exact hmb ch h2

/-- C8: rgbToHex maps the two anchor colors to "#000000" and "#ffffff";
every channel triple in 0..255 yields "#" + 6 lowercase hex digits (7
characters); and every palette entry from a valid byte buffer has this
shape because averaging and merging keep channels in 0..255. -/
theorem C8_hex_format :
    rgbToHex 0 0 0 = "#000000" ∧
    rgbToHex 255 255 255 = "#ffffff" ∧
    (∀ r g b : ℕ, r ≤ 255 → g ≤ 255 → b ≤ 255 → hexShape (rgbToHex r g b)) ∧
    (∀ (buf : List Pixel) (p mr s t : ℚ), validBuffer buf →
      ∀ pc ∈ tsPalette buf p mr s t, hexShape pc.paletteColor) := by
  refine ⟨by decide, by decide, fun r g b hr hg hb => rgbToHex_shape hr hg hb, ?_⟩
  intro buf p mr s t hv pc hpc
  simp only [tsPalette] at hpc
  by_cases h0 : (acceptedSamples buf (clampStep s)).length = 0
  · rw [if_pos h0] at hpc
    simp at hpc
  · rw [if_neg h0] at hpc
    obtain ⟨c, hc, hpc2⟩ := List.mem_map.mp hpc
    have hc2 := sortByPopDesc_mem (List.mem_of_mem_take hc)
    obtain ⟨c0, hc0, hc4⟩ := List.mem_map.mp hc2
    have hbnd := mergedColors_bounds hv (clampStep s) t c0 hc0
    have hfields : c.r = c0.r ∧ c.g = c0.g ∧ c.b = c0.b := by
      rw [← hc4]
      exact ⟨rfl, rfl, rfl⟩
    rw [← hpc2]
    have hshow : (toPaletteColor c).paletteColor = rgbToHex c.r c.g c.b := rfl
    rw [hshow, hfields.1, hfields.2.1, hfields.2.2]
    exact rgbToHex_shape hbnd.1 hbnd.2.1 hbnd.2.2

theorem C8_hex_format_witness :
    ((17 : ℕ) ≤ 255 ∧ (171 : ℕ) ≤ 255 ∧ (255 : ℕ) ≤ 255 ∧ validBuffer bufTwoColors) ∧
    hexShape (rgbToHex 17 171 255) ∧
    (∀ pc ∈ tsPalette bufTwoColors 10 1024 1 50, hexShape pc.paletteColor) :=
  ⟨⟨by decide, by decide, by decide, by decide⟩,
    C8_hex_format.2.2.1 17 171 255 (by decide) (by decide) (by decide),
    C8_hex_format.2.2.2 bufTwoColors 10 1024 1 50 (by decide)⟩

/-! WCAG contrast facts, for C9. -/

theorem channelToLinear_zero : channelToLinear 0 = 0 := by
  simp only [channelToLinear]
  norm_num

theorem channelToLinear_max : channelToLinear 255 = 1 := by
  simp only [channelToLinear]
  rw [if_neg (by norm_num)]
  rw [show ((255 : ℝ) / 255 + 0.055) / 1.055 = 1 by norm_num]
  exact Real.one_rpow _

theorem srgbToLuminance_zero : srgbToLuminance 0 0 0 = 0 := by
  unfold srgbToLuminance
  rw [channelToLinear_zero]
  ring

theorem srgbToLuminance_max : srgbToLuminance 255 255 255 = 1 := by
  unfold srgbToLuminance
  rw [channelToLinear_max]
  norm_num

theorem contrastRatio_zero_one : contrastRatio 0 1 = 21 := by
  unfold contrastRatio
  rw [max_eq_right (by norm_num : (0 : ℝ) ≤ 1), min_eq_left (by norm_num : (0 : ℝ) ≤ 1)]
  norm_num

theorem contrastRatio_zero_zero : contrastRatio 0 0 = 1 := by
  unfold contrastRatio
  rw [max_self, min_self]
  norm_num

theorem contrastRatio_one_one : contrastRatio 1 1 = 1 := by
  unfold contrastRatio
  rw [max_self, min_self]
  norm_num

theorem contrastRatio_one_zero : contrastRatio 1 0 = 21 := by
  unfold contrastRatio
  rw [max_eq_left (by norm_num : (0 : ℝ) ≤ 1), min_eq_right (by norm_num : (0 : ℝ) ≤ 1)]
  norm_num

/-- C9: bestTextColor returns white on black and black on white, and in
general returns white exactly when the WCAG contrast ratio of the
background luminance against white (luminance 1) is >= its ratio against
black (luminance 0), the ratio being (lighter + 0.05) / (darker + 0.05). -/
theorem C9_best_text_color :
    bestTextColor 0 0 0 = "#FFFFFF" ∧ bestTextColor 255 255 255 = "#000000" ∧
    ∀ r g b : ℝ, (bestTextColor r g b = "#FFFFFF" ↔
      contrastRatio (srgbToLuminance r g b) 1 ≥ contrastRatio (srgbToLuminance r g b) 0) := by
  have hne : ("#000000" : String) ≠ "#FFFFFF" := by decide
  refine ⟨?_, ?_, ?_⟩
  · unfold bestTextColor
    rw [srgbToLuminance_zero, srgbToLuminance_max, contrastRatio_zero_one,
      contrastRatio_zero_zero]
    rw [if_pos (by norm_num : (21 : ℝ) ≥ 1)]
  · unfold bestTextColor
    rw [srgbToLuminance_max, srgbToLuminance_zero, contrastRatio_one_one,
      contrastRatio_one_zero]
    rw [if_neg (by norm_num : ¬ ((1 : ℝ) ≥ 21))]
  · intro r g b
    unfold bestTextColor
    rw [srgbToLuminance_max, srgbToLuminance_zero]
    by_cases h : contrastRatio (srgbToLuminance r g b) 1 ≥ contrastRatio (srgbToLuminance r g b) 0
    · rw [if_pos h]
      simp [h]
    · rw [if_neg h]
      simp [h, hne]

/-! TS / JS pipeline comparison, for C10. -/

theorem jsSlice_eq_take {p : ℚ} (hp : 1 ≤ ⌊p⌋) (l : List α) :
    jsSlice l p = l.take (clampPalette p) := by
  have hp0 : (0 : ℚ) ≤ p := by
    have h1 : ((1 : ℤ) : ℚ) ≤ ((⌊p⌋ : ℤ) : ℚ) := by exact_mod_cast hp
    have h2 := Int.floor_le p
    push_cast at h1
    linarith
  simp only [jsSlice, jsTrunc]
  rw [if_pos hp0]
  rw [if_pos (by omega : (0 : ℤ) ≤ ⌊p⌋)]
  unfold clampPalette
  congr 1
  omega

/-- C10 corrected core: for explicitly supplied integer parameters
sampleStep >= 1 and paletteSize with floor >= 1, the TS and JS pipelines
return the identical ordered palette, and the TS defaults imported from
src/lib/paletteConfig.ts coincide with the JS default parameter values
(10, 1024, 2, 50). -/
theorem C10_ts_js_agree (buf : List Pixel) (p mr t : ℚ) (n : ℕ)
    (hn : 1 ≤ n) (hp : 1 ≤ ⌊p⌋) :
    tsPalette buf p mr (n : ℚ) t = jsPalette buf p mr n t ∧
    PALETTE_DEFAULTS = jsDefaults := by
  refine ⟨?_, rfl⟩
  have hstep : clampStep ((n : ℕ) : ℚ) = n := by
    unfold clampStep
    rw [Int.floor_natCast]
    rw [max_eq_right (by exact_mod_cast hn : (1 : ℤ) ≤ (n : ℤ))]
    omega
  simp only [tsPalette, jsPalette, hstep, jsSlice_eq_take hp]

/-- The one-pixel buffer separating the two implementations at
paletteSize = 0. -/
def bufOnePixel : List Pixel := [⟨10, 20, 30, 255⟩]

/-- C10 as stated is false: with paletteSize = 0 the TS pipeline clamps to
1 and returns one color while the JS pipeline's slice(0, 0) returns none,
so the two implementations are not extensionally equal over all parameter
tuples. -/
theorem C10_counterexample :
    tsPalette bufOnePixel 0 1024 1 50 ≠ jsPalette bufOnePixel 0 1024 1 50 := by
  have h1 : (tsPalette bufOnePixel 0 1024 1 50).length = 1 := by
    with_unfolding_all decide
  have h2 : (jsPalette bufOnePixel 0 1024 1 50).length = 0 := by
    with_unfolding_all decide
  intro h
  rw [h, h2] at h1
  exact absurd h1 (by norm_num)

theorem C10_ts_js_agree_witness :
    1 ≤ (2 : ℕ) ∧ 1 ≤ ⌊(10 : ℚ)⌋ ∧
    (tsPalette bufTwoColors 10 1024 ((2 : ℕ) : ℚ) 50 = jsPalette bufTwoColors 10 1024 2 50 ∧
      PALETTE_DEFAULTS = jsDefaults) :=
  ⟨by norm_num, by with_unfolding_all decide,
    C10_ts_js_agree bufTwoColors 10 1024 50 2 (by norm_num) (by with_unfolding_all decide)⟩
